import Mathlib

/-!
Verification development for the entity-matching core of the
`xian-realestate` repository (`scripts/validate_against_amap.py`).

The Python source is shallowly embedded as follows:

* Python strings are `List Char` (sequences of Unicode code points).
* Python floats parsed from the CSV input are rationals, embedded as `ℚ`;
  missing coordinates (`None`) are `Option ℚ` with `none`.  The transcendental
  haversine computation is idealized over `ℝ`.
* Python dictionaries (the normalized-name index) are association lists in
  insertion order; Python sets of strings are `Finset String`.
* Python truthiness tests on optional floats (`if record["lng"] and ...`)
  are embedded exactly: `none` and `some 0` are both falsy.
-/

/-- Embedding of `math.radians`: degrees to radians. -/
noncomputable def radians (x : ℝ) : ℝ := x * Real.pi / 180

/-- Embedding of `math.atan2` over the idealized reals (no signed zeros). -/
noncomputable def atan2 (y x : ℝ) : ℝ :=
  if 0 < x then Real.arctan (y / x)
  else if x < 0 then
    (if 0 ≤ y then Real.arctan (y / x) + Real.pi else Real.arctan (y / x) - Real.pi)
  else
    (if 0 < y then Real.pi / 2 else if y < 0 then -(Real.pi / 2) else 0)

/-- Embedding of `haversine(lat1, lon1, lat2, lon2)` from the source:
distance in meters between two WGS-84 points, Earth radius 6,371,000 m. -/
noncomputable def haversine (lat1 lon1 lat2 lon2 : ℝ) : ℝ :=
  let R : ℝ := 6371000
  let phi1 := radians lat1
  let phi2 := radians lat2
  let dphi := radians (lat2 - lat1)
  let dlam := radians (lon2 - lon1)
  let a := Real.sin (dphi / 2) ^ 2 +
    Real.cos phi1 * Real.cos phi2 * Real.sin (dlam / 2) ^ 2
  2 * R * atan2 (Real.sqrt a) (Real.sqrt (1 - a))

/-- Code points of the characters in the punctuation character class of
`normalize_name`:
middle dot U+00B7, hyphen, em dash U+2014, bullet U+2022, fullwidth stop
U+FF0E, period, parentheses, fullwidth parentheses U+FF08/U+FF09, square
brackets, CJK brackets U+3010/U+3011, corner brackets U+300C/U+300D and
U+300E/U+300F, double quote, apostrophe. -/
def punctCodes : List ℕ :=
  [183, 45, 8212, 8226, 65294, 46, 40, 41, 65288, 65289,
   91, 93, 12304, 12305, 12300, 12301, 12302, 12303, 34, 39]

/-- Membership in the punctuation character class of `normalize_name`. -/
def isPunct (c : Char) : Bool := punctCodes.contains c.toNat

/-- The code points matched by the regex whitespace class `\s` on Python
(Unicode) strings. -/
def isPySpace (c : Char) : Bool :=
  let n := c.toNat
  (9 ≤ n && n ≤ 13) || (28 ≤ n && n ≤ 32) || n == 133 || n == 160 ||
    n == 5760 || (8192 ≤ n && n ≤ 8202) || n == 8232 || n == 8233 ||
    n == 8239 || n == 8287 || n == 12288

/-- The two-character residential suffix words of `normalize_name`
(xiaoqu, huayuan, jiayuan, shequ, gongyu). -/
def suffix_words2 : List (List Char) :=
  [['小', '区'], ['花', '园'], ['家', '园'], ['社', '区'], ['公', '寓']]

/-- The one-character residential suffix words of `normalize_name`. -/
def suffix_words1 : List Char :=
  ['苑', '居', '庭', '府', '院', '城', '里', '境', '湾', '阁', '轩', '第']

/-- Embedding of the suffix-stripping regex substitution
`re.sub(r'(小区|花园|...|第)$', '', name)`: a regex match must end at the end
of the string, and the leftmost match wins, so a trailing two-character
suffix word beats a trailing one-character one; exactly one suffix
occurrence is removed. -/
def strip_suffix (l : List Char) : List Char :=
  if suffix_words2.any (fun s => decide (s <:+ l)) then l.take (l.length - 2)
  else if suffix_words1.any (fun c => decide ([c] <:+ l)) then l.take (l.length - 1)
  else l

/-- True when the list ends in one of the strippable suffix words. -/
def endsInSuffixWord (l : List Char) : Bool :=
  suffix_words2.any (fun s => decide (s <:+ l)) ||
    suffix_words1.any (fun c => decide ([c] <:+ l))

/-- Embedding of `normalize_name`: remove punctuation and whitespace, strip
one trailing suffix word, lower-case. -/
def normalize_name (name : List Char) : List Char :=
  let cleaned := name.filter (fun c => !(isPunct c || isPySpace c))
  (strip_suffix cleaned).map Char.toLower

/-- A record of the primary (`gaoxin_merged_all.csv`) dataset as built by
`load_our_data`; coordinates are optional rationals. -/
structure OurRecord where
  name : List Char
  price : List Char
  zone : List Char
  rtype : List Char
  lng : Option ℚ
  lat : Option ℚ
  normalized : List Char
deriving DecidableEq, Repr

/-- A reference record (Amap POI) as built by `load_amap_data`. -/
structure Poi where
  poi_id : String
  name : List Char
  type_name : List Char
  address : List Char
  lng : Option ℚ
  lat : Option ℚ
  normalized : List Char
deriving DecidableEq, Repr

/-- The four match-type strings returned by `find_best_match`. -/
inductive MatchType where
  | exact_name
  | substring
  | substring_nocoord
  | coord_proximity
deriving DecidableEq, Repr

/-- Python truthiness of an optional float: `None` and `0.0` are falsy. -/
def truthy : Option ℚ → Bool
  | none => false
  | some v => decide (v ≠ 0)

/-- Value of an optional coordinate at the points where the source reads it
(only ever done under a truthiness guard). -/
def oget (o : Option ℚ) : ℚ := o.getD 0

/-- The distance actually computed by the source between one of our records
and a POI: `haversine(record["lat"], record["lng"], poi["lat"], poi["lng"])`. -/
noncomputable def hav (record : OurRecord) (poi : Poi) : ℝ :=
  haversine (oget record.lat) (oget record.lng) (oget poi.lat) (oget poi.lng)

/-- The truthiness guard `record["lng"] and record["lat"] and poi["lng"] and
poi["lat"]` used before any distance computation in strategies 1 and 2. -/
def coordsOk (record : OurRecord) (poi : Poi) : Bool :=
  truthy record.lng && truthy record.lat && truthy poi.lng && truthy poi.lat

/-- One step of the dictionary construction in `main`: append `p` to the
bucket of key `k`, creating the bucket if absent (Python dict semantics,
insertion order preserved). -/
def dictAppend (idx : List (List Char × List Poi)) (k : List Char) (p : Poi) :
    List (List Char × List Poi) :=
  match idx with
  | [] => [(k, [p])]
  | (k0, v) :: rest =>
    if k0 = k then (k0, v ++ [p]) :: rest else (k0, v) :: dictAppend rest k p

/-- The normalized-name index built in `main` over the Amap data, in
insertion order. -/
def amap_norm_index (amap_data : List Poi) : List (List Char × List Poi) :=
  amap_data.foldl (fun idx poi => dictAppend idx poi.normalized poi) []

/-- Embedding of `amap_norm_index.get(norm, [])`. -/
def index_get (idx : List (List Char × List Poi)) (k : List Char) : List Poi :=
  match idx.find? (fun e => decide (e.1 = k)) with
  | some e => e.2
  | none => []

/-- Threshold `ACCURATE_THRESHOLD = 100` (meters). -/
noncomputable def ACCURATE_THRESHOLD : ℝ := 100

/-- Threshold `MATCH_THRESHOLD = 500` (meters). -/
noncomputable def MATCH_THRESHOLD : ℝ := 500

/-- Strategy 2 of `find_best_match`: scan the POI list in order; on the
first POI whose normalized name (both names being at least 2 characters
long) contains or is contained in the record's normalized name, return it
if the distance is below `MATCH_THRESHOLD`, or unconditionally with absent
distance when the coordinate truthiness guard fails; otherwise keep
scanning. -/
noncomputable def strategy2 (record : OurRecord) :
    List Poi → Option (Poi × MatchType × Option ℝ)
  | [] => none
  | poi :: rest =>
    if 2 ≤ record.normalized.length ∧ 2 ≤ poi.normalized.length then
      if record.normalized <:+: poi.normalized ∨ poi.normalized <:+: record.normalized then
        if coordsOk record poi then
          if hav record poi < MATCH_THRESHOLD then
            some (poi, MatchType.substring, some (hav record poi))
          else strategy2 record rest
        else some (poi, MatchType.substring_nocoord, none)
      else strategy2 record rest
    else strategy2 record rest

/-- One iteration of the strategy-3 loop of `find_best_match`.  The
accumulator is `none` while `closest_dist` is still `float("inf")` and
`closest_poi` is `None`, and `some (closest_dist, closest_poi)` afterwards. -/
noncomputable def strategy3_step (record : OurRecord) (acc : Option (ℝ × Poi))
    (poi : Poi) : Option (ℝ × Poi) :=
  if truthy poi.lng && truthy poi.lat then
    let dist := hav record poi
    match acc with
    | none => if dist < 50 then some (dist, poi) else none
    | some cp => if dist < 50 ∧ dist < cp.1 then some (dist, poi) else some cp
  else acc

/-- Strategy 3 of `find_best_match`: closest POI with truthy coordinates
within 50 m. -/
noncomputable def strategy3 (record : OurRecord) (amap_pois : List Poi) :
    Option (ℝ × Poi) :=
  amap_pois.foldl (strategy3_step record) none

/-- Embedding of `find_best_match(record, amap_pois, amap_norm_index)`. -/
noncomputable def find_best_match (record : OurRecord) (amap_pois : List Poi)
    (idx : List (List Char × List Poi)) :
    Option Poi × Option MatchType × Option ℝ :=
  match index_get idx record.normalized with
  | poi :: _ =>
    (some poi, some MatchType.exact_name,
      if coordsOk record poi then some (hav record poi) else none)
  | [] =>
    match strategy2 record amap_pois with
    | some (poi, mt, d) => (some poi, some mt, d)
    | none =>
      if truthy record.lng && truthy record.lat then
        match strategy3 record amap_pois with
        | some (cd, poi) => (some poi, some MatchType.coord_proximity, some cd)
        | none => (none, none, none)
      else (none, none, none)

/-- The audit categories assigned in `main` (the `category` column). -/
inductive Category where
  | both_accurate
  | both_inaccurate
  | both_nocoord
  | only_ours
deriving DecidableEq, Repr

/-- The categorization branch of `main`: given the matched POI (or none)
and the optional distance of one outcome, the category written to the
detail row. -/
noncomputable def categorize (poi : Option Poi) (dist : Option ℝ) : Category :=
  match poi with
  | some _ =>
    match dist with
    | some d =>
      if d < ACCURATE_THRESHOLD then Category.both_accurate
      else Category.both_inaccurate
    | none => Category.both_nocoord
  | none => Category.only_ours

/-- The matching pass of `main`: one `find_best_match` outcome per primary
record, in order. -/
noncomputable def process_records (our_data : List OurRecord)
    (amap_data : List Poi) (idx : List (List Char × List Poi)) :
    List (Option Poi × Option MatchType × Option ℝ) :=
  our_data.map (fun rec => find_best_match rec amap_data idx)

/-- The `matched_amap_ids` set accumulated in `main`: ids of POIs that were
the matched target of some outcome. -/
def matched_amap_ids
    (outcomes : List (Option Poi × Option MatchType × Option ℝ)) :
    Finset String :=
  outcomes.foldl
    (fun s o => match o.1 with
      | some poi => insert poi.poi_id s
      | none => s) ∅

/-- Category 4 of `main` (`cat4_only_amap`): the POIs whose id never entered
`matched_amap_ids`. -/
def cat4_only_amap (amap_data : List Poi) (matched : Finset String) :
    List Poi :=
  amap_data.filter (fun poi => decide (poi.poi_id ∉ matched))

/-- The acceptance condition of strategy 2 at a single POI: lengths at
least 2, one normalized name contained in the other, and when the
coordinate truthiness guard holds the distance is below the 500 m match
threshold (when the guard fails the POI is accepted unconditionally). -/
noncomputable def sub_accept (record : OurRecord) (poi : Poi) : Prop :=
  (2 ≤ record.normalized.length ∧ 2 ≤ poi.normalized.length) ∧
    (record.normalized <:+: poi.normalized ∨ poi.normalized <:+: record.normalized) ∧
    (coordsOk record poi = true → hav record poi < MATCH_THRESHOLD)

/-- Looking up a key in an association list after a `dictAppend` appends the
new POI to that key's bucket and leaves other buckets unchanged. -/
theorem index_get_cons (k1 : List Char) (v : List Poi)
    (rest : List (List Char × List Poi)) (k : List Char) :
    index_get ((k1, v) :: rest) k = if k1 = k then v else index_get rest k := by
  by_cases h : k1 = k <;> simp [index_get, List.find?, h]

/-- Effect of one `dictAppend` on a bucket lookup. -/
theorem index_get_dictAppend (idx : List (List Char × List Poi))
    (k0 : List Char) (p : Poi) (k : List Char) :
    index_get (dictAppend idx k0 p) k =
      if k0 = k then index_get idx k ++ [p] else index_get idx k := by
  induction idx with
  | nil =>
    by_cases h : k0 = k <;> simp [dictAppend, index_get, List.find?, h]
  | cons e rest ih =>
    obtain ⟨k1, v⟩ := e
    by_cases h1 : k1 = k0
    · subst h1
      by_cases h : k1 = k <;> simp [dictAppend, index_get_cons, h]
    · by_cases h : k1 = k
      · subst h
        have hk : ¬ k0 = k1 := fun hh => h1 hh.symm
        simp [dictAppend, h1, index_get_cons, hk]
      · simp [dictAppend, h1, index_get_cons, h, ih]

/-- Folding the index construction over a POI list appends, to each bucket,
the POIs of that normalized name in list order. -/
theorem index_get_foldl (pois : List Poi) (idx : List (List Char × List Poi))
    (k : List Char) :
    index_get (pois.foldl (fun i poi => dictAppend i poi.normalized poi) idx) k =
      index_get idx k ++ pois.filter (fun q => decide (q.normalized = k)) := by
  induction pois generalizing idx with
  | nil => simp
  | cons p rest ih =>
    simp only [List.foldl_cons, ih, index_get_dictAppend]
    by_cases h : p.normalized = k <;> simp [List.filter_cons, h]

/-- The bucket of key `k` in the index built by `main` is exactly the list
of POIs with normalized name `k`, in insertion (collection) order. -/
theorem index_get_build (amap_data : List Poi) (k : List Char) :
    index_get (amap_norm_index amap_data) k =
      amap_data.filter (fun q => decide (q.normalized = k)) := by
  have h := index_get_foldl amap_data [] k
  simpa [amap_norm_index, index_get, List.find?] using h

/-- C1: when the record's normalized key has a non-empty bucket in the index
built over the reference collection (buckets in insertion order), the
matcher returns the first candidate of that bucket with tier `exact_name`
and never reaches strategies 2 or 3; distance considerations play no role
in the choice. -/
theorem c1_exact_name_first_of_bucket (record : OurRecord)
    (amap_data : List Poi) (p : Poi) (rest : List Poi)
    (h : amap_data.filter (fun q => decide (q.normalized = record.normalized)) = p :: rest) :
    find_best_match record amap_data (amap_norm_index amap_data) =
      (some p, some MatchType.exact_name,
        if coordsOk record p then some (hav record p) else none) := by
  have hb : index_get (amap_norm_index amap_data) record.normalized = p :: rest := by
    rw [index_get_build, h]
  simp [find_best_match, hb]

/-- A primary record whose normalized key is shared by the two sample POIs
below; its coordinates coincide with the second-listed POI. -/
def recW1 : OurRecord :=
  ⟨['a', 'b'], [], [], [], some (1091/10), some (341/10), ['a', 'b']⟩

/-- First-listed sample POI with normalized key `ab`. -/
def poiW1 : Poi := ⟨"R1", ['a', 'b'], [], [], some 109, some 34, ['a', 'b']⟩

/-- Second-listed sample POI with normalized key `ab`, geographically at the
exact position of `recW1` (hence nearer than `poiW1`). -/
def poiW2 : Poi :=
  ⟨"R2", ['a', 'b'], [], [], some (1091/10), some (341/10), ['a', 'b']⟩

/-- Witness for C1: with two reference records sharing the record's key and
the second-listed one at distance zero, the first-listed one is returned. -/
theorem c1_exact_name_first_of_bucket_witness :
    ([poiW1, poiW2].filter (fun q => decide (q.normalized = recW1.normalized)) =
      poiW1 :: [poiW2]) ∧
    find_best_match recW1 [poiW1, poiW2] (amap_norm_index [poiW1, poiW2]) =
      (some poiW1, some MatchType.exact_name,
        if coordsOk recW1 poiW1 then some (hav recW1 poiW1) else none) :=
  ⟨rfl, c1_exact_name_first_of_bucket recW1 [poiW1, poiW2] poiW1 [poiW2] rfl⟩

/-- C4: the categorization branch of `main` maps a found match with present
distance to `both_accurate` exactly when the distance is strictly below the
100 m threshold and to `both_inaccurate` otherwise, a found match with
absent distance to `both_nocoord`, and no match to `only_ours`; distance
99.999 is accurate while distance 100 is inaccurate. -/
theorem c4_categorize_cases :
    (∀ (p : Poi) (d : ℝ), categorize (some p) (some d) =
      if d < 100 then Category.both_accurate else Category.both_inaccurate) ∧
    (∀ p : Poi, categorize (some p) none = Category.both_nocoord) ∧
    (∀ dopt : Option ℝ, categorize none dopt = Category.only_ours) ∧
    (∀ p : Poi, categorize (some p) (some 99.999) = Category.both_accurate) ∧
    (∀ p : Poi, categorize (some p) (some 100) = Category.both_inaccurate) := by
  have hbase : ∀ (p : Poi) (d : ℝ), categorize (some p) (some d) =
      if d < 100 then Category.both_accurate else Category.both_inaccurate := by
    intro p d
    simp [categorize, ACCURATE_THRESHOLD]
  refine ⟨hbase, fun p => rfl, fun dopt => rfl, fun p => ?_, fun p => ?_⟩
  · rw [hbase]
    norm_num
  · rw [hbase]
    norm_num

/-- C7: the matching pass is total: it yields exactly one outcome per
primary record, in primary-collection order, each being the
`find_best_match` result of the corresponding record; no record is
dropped (totality of the embedding also reflects that the pass never
raises). -/
theorem c7_one_outcome_per_record (our_data : List OurRecord)
    (amap_data : List Poi) (idx : List (List Char × List Poi)) :
    (process_records our_data amap_data idx).length = our_data.length ∧
    ∀ i : ℕ, (process_records our_data amap_data idx)[i]? =
      (our_data[i]?).map (fun rec => find_best_match rec amap_data idx) := by
  constructor
  · simp [process_records]
  · intro i
    simp [process_records]

/-- A POI that does not satisfy the strategy-2 acceptance condition is
skipped by the strategy-2 scan. -/
theorem strategy2_cons_of_not_accept (record : OurRecord) (poi : Poi)
    (rest : List Poi) (h : ¬ sub_accept record poi) :
    strategy2 record (poi :: rest) = strategy2 record rest := by
  by_cases h1 : 2 ≤ record.normalized.length ∧ 2 ≤ poi.normalized.length
  · by_cases h2 : record.normalized <:+: poi.normalized ∨
        poi.normalized <:+: record.normalized
    · by_cases h3 : coordsOk record poi = true
      · by_cases h4 : hav record poi < MATCH_THRESHOLD
        · exact absurd ⟨h1, h2, fun _ => h4⟩ h
        · simp [strategy2, h1, h2, h3, h4]
      · exact absurd ⟨h1, h2, fun hc => absurd hc h3⟩ h
    · simp [strategy2, h1, h2]
  · simp [strategy2, h1]

/-- A POI that satisfies the strategy-2 acceptance condition is returned by
the scan as soon as it is reached, with tier and distance decided by the
coordinate truthiness guard. -/
theorem strategy2_cons_of_accept (record : OurRecord) (poi : Poi)
    (rest : List Poi) (h : sub_accept record poi) :
    strategy2 record (poi :: rest) =
      some (poi,
        if coordsOk record poi then MatchType.substring
          else MatchType.substring_nocoord,
        if coordsOk record poi then some (hav record poi) else none) := by
  obtain ⟨h1, h2, h3⟩ := h
  by_cases hc : coordsOk record poi = true
  · simp [strategy2, h1, h2, hc, h3 hc]
  · simp [strategy2, h1, h2, hc]

/-- The strategy-2 scan returns the first acceptable POI in scan order. -/
theorem strategy2_first (record : OurRecord) (l1 : List Poi) (p : Poi)
    (l2 : List Poi) (hbefore : ∀ q ∈ l1, ¬ sub_accept record q)
    (hacc : sub_accept record p) :
    strategy2 record (l1 ++ p :: l2) =
      some (p,
        if coordsOk record p then MatchType.substring
          else MatchType.substring_nocoord,
        if coordsOk record p then some (hav record p) else none) := by
  induction l1 with
  | nil => exact strategy2_cons_of_accept record p l2 hacc
  | cons q rest ih =>
    rw [List.cons_append,
      strategy2_cons_of_not_accept record q _ (hbefore q (by simp))]
    exact ih (fun q2 hq2 => hbefore q2 (by simp [hq2]))

/-- If no POI of the list is acceptable to strategy 2, the scan returns
nothing. -/
theorem strategy2_eq_none (record : OurRecord) (pois : List Poi)
    (h : ∀ q ∈ pois, ¬ sub_accept record q) :
    strategy2 record pois = none := by
  induction pois with
  | nil => rfl
  | cons q rest ih =>
    rw [strategy2_cons_of_not_accept record q rest (h q (by simp))]
    exact ih (fun q2 hq2 => h q2 (by simp [hq2]))

/-- Any POI returned by the strategy-2 scan was returned from one of its two
return sites: with the truthiness guard holding, tier `substring` and the
haversine distance (below the 500 m threshold); or with the guard failing,
tier `substring_nocoord` and absent distance. -/
theorem strategy2_some_cases (record : OurRecord) (pois : List Poi)
    (poi : Poi) (mt : MatchType) (d : Option ℝ)
    (h : strategy2 record pois = some (poi, mt, d)) :
    (coordsOk record poi = true ∧ mt = MatchType.substring ∧
      d = some (hav record poi) ∧ hav record poi < MATCH_THRESHOLD) ∨
    (coordsOk record poi = false ∧ mt = MatchType.substring_nocoord ∧
      d = none) := by
  induction pois with
  | nil => simp [strategy2] at h
  | cons q rest ih =>
    by_cases h1 : 2 ≤ record.normalized.length ∧ 2 ≤ q.normalized.length
    · by_cases h2 : record.normalized <:+: q.normalized ∨
          q.normalized <:+: record.normalized
      · by_cases h3 : coordsOk record q = true
        · by_cases h4 : hav record q < MATCH_THRESHOLD
          · simp [strategy2, h1, h2, h3, h4] at h
            obtain ⟨hq, hmt, hd⟩ := h
            subst hq
            exact Or.inl ⟨h3, hmt.symm, by rw [hd.symm], h4⟩
          · simp only [strategy2, if_pos h1, if_pos h2, if_pos h3,
              if_neg h4] at h
            exact ih h
        · simp [strategy2, h1, h2, h3] at h
          obtain ⟨hq, hmt, hd⟩ := h
          subst hq
          refine Or.inr ⟨by simpa using h3, hmt.symm, hd.symm⟩
      · simp only [strategy2, if_pos h1, if_neg h2] at h
        exact ih h
    · simp only [strategy2, if_neg h1] at h
      exact ih h

/-- A primary record whose normalized key is the single character `a`. -/
def recC3 : OurRecord := ⟨['a'], [], [], [], none, none, ['a']⟩

/-- A POI whose normalized key `ab` contains `recC3`'s key. -/
def poiC3 : Poi := ⟨"P1", ['a', 'b'], [], [], none, none, ['a', 'b']⟩

/-- Counterexample to C3 as stated: `recC3`'s key has an empty bucket, the
candidate `poiC3` has a normalized key of length 2 which contains the
record's key, and both sides lack coordinates, so the claim predicts an
unconditional substring match; but the source also requires the *record's*
key to be at least 2 characters long, so the matcher returns no match. -/
theorem c3_substring_counterexample :
    index_get (amap_norm_index [poiC3]) recC3.normalized = [] ∧
    2 ≤ poiC3.normalized.length ∧
    recC3.normalized <:+: poiC3.normalized ∧
    recC3.lng = none ∧ recC3.lat = none ∧
    find_best_match recC3 [poiC3] (amap_norm_index [poiC3]) =
      (none, none, none) := by
  refine ⟨rfl, by decide, by decide, rfl, rfl, ?_⟩
  rfl

/-- C3 (amended): if strategy 1 yields no candidate, the matcher scans the
reference collection in order and returns the first candidate such that
*both* normalized keys are at least 2 characters long, one contains the
other, and either the coordinate truthiness guard fails (unconditional
accept, absent distance) or the distance is below the 500 m threshold
(tier `substring`, distance present). -/
theorem c3_substring_first_amended (record : OurRecord)
    (amap_data l1 : List Poi) (p : Poi) (l2 : List Poi)
    (hidx : index_get (amap_norm_index amap_data) record.normalized = [])
    (hsplit : amap_data = l1 ++ p :: l2)
    (hbefore : ∀ q ∈ l1, ¬ sub_accept record q)
    (hacc : sub_accept record p) :
    find_best_match record amap_data (amap_norm_index amap_data) =
      (some p,
        some (if coordsOk record p then MatchType.substring
          else MatchType.substring_nocoord),
        if coordsOk record p then some (hav record p) else none) := by
  have hs2 := strategy2_first record l1 p l2 hbefore hacc
  rw [← hsplit] at hs2
  by_cases hc : coordsOk record p = true <;>
    simp [find_best_match, hidx, hs2, hc]

/-- A primary record with normalized key `ab` and no coordinates. -/
def recC3w : OurRecord := ⟨['a', 'b'], [], [], [], none, none, ['a', 'b']⟩

/-- A POI not acceptable to strategy 2 for `recC3w` (no containment). -/
def poiC3x : Poi := ⟨"PX", ['z', 'z'], [], [], some 109, some 34, ['z', 'z']⟩

/-- A POI whose normalized key `abc` contains `recC3w`'s key `ab`. -/
def poiC3y : Poi :=
  ⟨"PY", ['a', 'b', 'c'], [], [], some 109, some 34, ['a', 'b', 'c']⟩

/-- Witness for the amended C3: the second-listed POI is the first
acceptable one and is returned through the no-coordinate branch. -/
theorem c3_substring_first_amended_witness :
    index_get (amap_norm_index [poiC3x, poiC3y]) recC3w.normalized = [] ∧
    sub_accept recC3w poiC3y ∧
    find_best_match recC3w [poiC3x, poiC3y]
        (amap_norm_index [poiC3x, poiC3y]) =
      (some poiC3y,
        some (if coordsOk recC3w poiC3y then MatchType.substring
          else MatchType.substring_nocoord),
        if coordsOk recC3w poiC3y then some (hav recC3w poiC3y) else none) := by
  have hacc : sub_accept recC3w poiC3y :=
    ⟨by decide, by decide, fun hc => absurd hc (by decide)⟩
  refine ⟨rfl, hacc, ?_⟩
  exact c3_substring_first_amended recC3w [poiC3x, poiC3y] [poiC3x] poiC3y []
    rfl rfl
    (fun q hq => by
      have hq2 : q = poiC3x := by simpa using hq
      subst hq2
      exact fun hs => absurd hs.2.1 (by decide))
    hacc

/-- The haversine distance from a point to itself is exactly zero. -/
theorem haversine_self (lat lon : ℝ) : haversine lat lon lat lon = 0 := by
  norm_num [haversine, radians, atan2, Real.sin_zero, Real.sqrt_one,
    Real.arctan_zero]

/-- The haversine distance is symmetric in its two points (exactly, in the
idealized real-number model). -/
theorem haversine_comm (lat1 lon1 lat2 lon2 : ℝ) :
    haversine lat1 lon1 lat2 lon2 = haversine lat2 lon2 lat1 lon1 := by
  have hs : ∀ x y : ℝ,
      Real.sin (radians (x - y) / 2) ^ 2 = Real.sin (radians (y - x) / 2) ^ 2 := by
    intro x y
    have hr : radians (x - y) / 2 = -(radians (y - x) / 2) := by
      unfold radians; ring
    rw [hr, Real.sin_neg]
    ring
  simp only [haversine]
  rw [hs lat2 lat1, hs lon2 lon1, mul_comm (Real.cos (radians lat1))]

/-- Two points exactly one degree of latitude apart at the same longitude
are within 1% of 111,195 m. -/
theorem haversine_one_degree (lat lon : ℝ) :
    |haversine (lat + 1) lon lat lon - 111195| < 1111.95 := by
  have hpi := Real.pi_pos
  have h1 : radians (lat - (lat + 1)) / 2 = -(Real.pi / 360) := by
    unfold radians; ring
  have h2 : radians (lon - lon) / 2 = 0 := by
    unfold radians; ring
  have hlt : Real.pi / 360 < Real.pi / 2 := by nlinarith
  have hgt : -(Real.pi / 2) < Real.pi / 360 := by nlinarith
  have hsin_nonneg : 0 ≤ Real.sin (Real.pi / 360) :=
    Real.sin_nonneg_of_nonneg_of_le_pi (by positivity) (by nlinarith)
  have hcos_pos : 0 < Real.cos (Real.pi / 360) :=
    Real.cos_pos_of_mem_Ioo ⟨hgt, hlt⟩
  have hval : haversine (lat + 1) lon lat lon = 2 * 6371000 * (Real.pi / 360) := by
    simp only [haversine]
    rw [h1, h2, Real.sin_neg, Real.sin_zero]
    have ha : (-Real.sin (Real.pi / 360)) ^ 2 +
        Real.cos (radians (lat + 1)) * Real.cos (radians lat) * 0 ^ 2 =
        Real.sin (Real.pi / 360) ^ 2 := by ring
    rw [ha]
    have hsq : Real.sqrt (Real.sin (Real.pi / 360) ^ 2) =
        Real.sin (Real.pi / 360) := Real.sqrt_sq hsin_nonneg
    have hcos_sq : (1 : ℝ) - Real.sin (Real.pi / 360) ^ 2 =
        Real.cos (Real.pi / 360) ^ 2 := by
      have := Real.sin_sq_add_cos_sq (Real.pi / 360)
      linarith
    have hsq2 : Real.sqrt (1 - Real.sin (Real.pi / 360) ^ 2) =
        Real.cos (Real.pi / 360) := by
      rw [hcos_sq]
      exact Real.sqrt_sq hcos_pos.le
    rw [hsq, hsq2]
    have hatan : atan2 (Real.sin (Real.pi / 360)) (Real.cos (Real.pi / 360)) =
        Real.pi / 360 := by
      unfold atan2
      rw [if_pos hcos_pos, ← Real.tan_eq_sin_div_cos]
      exact Real.arctan_tan hgt hlt
    rw [hatan]
  rw [hval, abs_sub_lt_iff]
  have hub := Real.pi_lt_d6
  have hlb := Real.pi_gt_d6
  constructor <;> nlinarith

/-- C9: the haversine distance (Earth radius 6,371,000 m) of a point to
itself is exactly zero, the function is symmetric under swapping its two
points, and two points exactly one degree of latitude apart at the same
longitude are within 1% of 111,195 m. -/
theorem c9_haversine_contract :
    (∀ lat lon : ℝ, haversine lat lon lat lon = 0) ∧
    (∀ lat1 lon1 lat2 lon2 : ℝ,
      haversine lat1 lon1 lat2 lon2 = haversine lat2 lon2 lat1 lon1) ∧
    (∀ lat lon : ℝ, |haversine (lat + 1) lon lat lon - 111195| < 1111.95) :=
  ⟨haversine_self, haversine_comm, haversine_one_degree⟩

/-- Once the strategy-3 loop has a closest candidate it never loses it. -/
theorem strategy3_foldl_some_ne_none (record : OurRecord) (l : List Poi) :
    ∀ cp : ℝ × Poi, l.foldl (strategy3_step record) (some cp) ≠ none := by
  induction l with
  | nil => intro cp h; exact Option.noConfusion h
  | cons q rest ih =>
    intro cp
    by_cases hq : truthy q.lng && truthy q.lat
    · by_cases hd : hav record q < 50 ∧ hav record q < cp.1
      · simpa [strategy3_step, hq, hd] using ih (hav record q, q)
      · simpa [strategy3_step, hq, hd] using ih cp
    · simpa [strategy3_step, hq] using ih cp

/-- If the strategy-3 loop ends with no candidate then it started with none
and no scanned POI with truthy coordinates lies strictly within 50 m. -/
theorem strategy3_foldl_eq_none (record : OurRecord) (l : List Poi) :
    ∀ acc : Option (ℝ × Poi), l.foldl (strategy3_step record) acc = none →
      acc = none ∧ ∀ q ∈ l, truthy q.lng = true → truthy q.lat = true →
        ¬ hav record q < 50 := by
  induction l with
  | nil =>
    intro acc h
    simp only [List.foldl_nil] at h
    exact ⟨h, by simp⟩
  | cons q rest ih =>
    intro acc h
    rw [List.foldl_cons] at h
    rcases acc with _ | cp
    · by_cases hq : truthy q.lng && truthy q.lat
      · by_cases hd : hav record q < 50
        · rw [show strategy3_step record none q = some (hav record q, q) by
            simp [strategy3_step, hq, hd]] at h
          exact absurd h (strategy3_foldl_some_ne_none record rest _)
        · rw [show strategy3_step record none q = none by
            simp [strategy3_step, hq, hd]] at h
          obtain ⟨-, hrest⟩ := ih none h
          refine ⟨rfl, ?_⟩
          intro q2 hq2
          rcases List.mem_cons.mp hq2 with hq2 | hq2
          · subst hq2; intro _ _; exact hd
          · exact hrest q2 hq2
      · rw [show strategy3_step record none q = none by
          simp [strategy3_step, hq]] at h
        obtain ⟨-, hrest⟩ := ih none h
        refine ⟨rfl, ?_⟩
        intro q2 hq2
        rcases List.mem_cons.mp hq2 with hq2 | hq2
        · subst hq2
          intro ha hb
          rw [ha, hb] at hq
          simp at hq
        · exact hrest q2 hq2
    · exfalso
      by_cases hq : truthy q.lng && truthy q.lat
      · by_cases hd : hav record q < 50 ∧ hav record q < cp.1
        · rw [show strategy3_step record (some cp) q = some (hav record q, q) by
            simp [strategy3_step, hq, hd]] at h
          exact strategy3_foldl_some_ne_none record rest _ h
        · rw [show strategy3_step record (some cp) q = some cp by
            simp [strategy3_step, hq, hd]] at h
          exact strategy3_foldl_some_ne_none record rest _ h
      · rw [show strategy3_step record (some cp) q = some cp by
          simp [strategy3_step, hq]] at h
        exact strategy3_foldl_some_ne_none record rest _ h

/-- Invariant of the strategy-3 loop: a final candidate either was the
starting candidate or is a scanned POI with truthy coordinates whose
distance it records, strictly below 50 m; the final distance never exceeds
the starting one, and is minimal among all scanned qualifying POIs. -/
theorem strategy3_foldl_eq_some (record : OurRecord) (l : List Poi) :
    ∀ (acc : Option (ℝ × Poi)) (cd : ℝ) (p : Poi),
      l.foldl (strategy3_step record) acc = some (cd, p) →
      (acc = some (cd, p) ∨
        (p ∈ l ∧ truthy p.lng = true ∧ truthy p.lat = true ∧
          cd = hav record p ∧ cd < 50)) ∧
      (∀ (cd0 : ℝ) (p0 : Poi), acc = some (cd0, p0) → cd ≤ cd0) ∧
      (∀ q ∈ l, truthy q.lng = true → truthy q.lat = true →
        hav record q < 50 → cd ≤ hav record q) := by
  induction l with
  | nil =>
    intro acc cd p h
    simp only [List.foldl_nil] at h
    subst h
    refine ⟨Or.inl rfl, ?_, by simp⟩
    intro cd0 p0 h0
    injection Option.some.inj h0 with he1 he2
    exact le_of_eq he1
  | cons q rest ih =>
    intro acc cd p h
    rw [List.foldl_cons] at h
    by_cases hq : truthy q.lng && truthy q.lat
    · have hq' : truthy q.lng = true ∧ truthy q.lat = true := by
        simpa [Bool.and_eq_true] using hq
      obtain ⟨hq1, hq2⟩ := hq'
      rcases acc with _ | cp
      · by_cases hd : hav record q < 50
        · rw [show strategy3_step record none q = some (hav record q, q) by
            simp [strategy3_step, hq, hd]] at h
          obtain ⟨hprov, hmin, hlist⟩ := ih (some (hav record q, q)) cd p h
          have hcd : cd ≤ hav record q := hmin (hav record q) q rfl
          refine ⟨?_, ?_, ?_⟩
          · rcases hprov with hprov | hprov
            · injection Option.some.inj hprov with he1 he2
              subst he1; subst he2
              exact Or.inr ⟨List.mem_cons_self q rest, hq1, hq2, rfl, hd⟩
            · exact Or.inr ⟨List.mem_cons_of_mem q hprov.1, hprov.2.1,
                hprov.2.2.1, hprov.2.2.2.1, hprov.2.2.2.2⟩
          · intro cd0 p0 h0; exact Option.noConfusion h0
          · intro q2 hq2m ha hb hc
            rcases List.mem_cons.mp hq2m with hq2m | hq2m
            · subst hq2m; exact hcd
            · exact hlist q2 hq2m ha hb hc
        · rw [show strategy3_step record none q = none by
            simp [strategy3_step, hq, hd]] at h
          obtain ⟨hprov, hmin, hlist⟩ := ih none cd p h
          refine ⟨?_, ?_, ?_⟩
          · rcases hprov with hprov | hprov
            · exact Option.noConfusion hprov
            · exact Or.inr ⟨List.mem_cons_of_mem q hprov.1, hprov.2.1,
                hprov.2.2.1, hprov.2.2.2.1, hprov.2.2.2.2⟩
          · intro cd0 p0 h0; exact Option.noConfusion h0
          · intro q2 hq2m ha hb hc
            rcases List.mem_cons.mp hq2m with hq2m | hq2m
            · subst hq2m; exact absurd hc hd
            · exact hlist q2 hq2m ha hb hc
      · by_cases hd : hav record q < 50 ∧ hav record q < cp.1
        · rw [show strategy3_step record (some cp) q = some (hav record q, q) by
            simp [strategy3_step, hq, hd]] at h
          obtain ⟨hprov, hmin, hlist⟩ := ih (some (hav record q, q)) cd p h
          have hcd : cd ≤ hav record q := hmin (hav record q) q rfl
          refine ⟨?_, ?_, ?_⟩
          · rcases hprov with hprov | hprov
            · injection Option.some.inj hprov with he1 he2
              subst he1; subst he2
              exact Or.inr ⟨List.mem_cons_self q rest, hq1, hq2, rfl, hd.1⟩
            · exact Or.inr ⟨List.mem_cons_of_mem q hprov.1, hprov.2.1,
                hprov.2.2.1, hprov.2.2.2.1, hprov.2.2.2.2⟩
          · intro cd0 p0 h0
            injection h0 with h0'
            have h1 : cp.1 = cd0 := by rw [h0']
            exact le_trans hcd (le_of_lt (h1 ▸ hd.2))
          · intro q2 hq2m ha hb hc
            rcases List.mem_cons.mp hq2m with hq2m | hq2m
            · subst hq2m; exact hcd
            · exact hlist q2 hq2m ha hb hc
        · rw [show strategy3_step record (some cp) q = some cp by
            simp [strategy3_step, hq, hd]] at h
          obtain ⟨hprov, hmin, hlist⟩ := ih (some cp) cd p h
          have hcdcp : cd ≤ cp.1 := hmin cp.1 cp.2 (by simp)
          refine ⟨?_, ?_, ?_⟩
          · rcases hprov with hprov | hprov
            · exact Or.inl hprov
            · exact Or.inr ⟨List.mem_cons_of_mem q hprov.1, hprov.2.1,
                hprov.2.2.1, hprov.2.2.2.1, hprov.2.2.2.2⟩
          · intro cd0 p0 h0
            injection h0 with h0'
            have h1 : cp.1 = cd0 := by rw [h0']
            exact h1 ▸ hcdcp
          · intro q2 hq2m ha hb hc
            rcases List.mem_cons.mp hq2m with hq2m | hq2m
            · subst hq2m
              have h50 : ¬ hav record q2 < cp.1 := fun hlt => hd ⟨hc, hlt⟩
              exact le_trans hcdcp (not_lt.mp h50)
            · exact hlist q2 hq2m ha hb hc
    · rw [show strategy3_step record acc q = acc by
        simp [strategy3_step, hq]] at h
      obtain ⟨hprov, hmin, hlist⟩ := ih acc cd p h
      refine ⟨?_, hmin, ?_⟩
      · rcases hprov with hprov | hprov
        · exact Or.inl hprov
        · exact Or.inr ⟨List.mem_cons_of_mem q hprov.1, hprov.2.1,
            hprov.2.2.1, hprov.2.2.2.1, hprov.2.2.2.2⟩
      · intro q2 hq2m ha hb hc
        rcases List.mem_cons.mp hq2m with hq2m | hq2m
        · subst hq2m
          rw [ha, hb] at hq
          simp at hq
        · exact hlist q2 hq2m ha hb hc

/-- If no POI with truthy coordinates lies strictly within 50 m, strategy 3
yields no candidate. -/
theorem strategy3_eq_none_of (record : OurRecord) (pois : List Poi)
    (h : ∀ q ∈ pois, truthy q.lng = true → truthy q.lat = true →
      ¬ hav record q < 50) :
    strategy3 record pois = none := by
  unfold strategy3
  induction pois with
  | nil => rfl
  | cons q rest ih =>
    rw [List.foldl_cons]
    have hstep : strategy3_step record none q = none := by
      by_cases hq : truthy q.lng && truthy q.lat
      · have hq' : truthy q.lng = true ∧ truthy q.lat = true := by
          simpa [Bool.and_eq_true] using hq
        simp [strategy3_step, hq, h q (List.mem_cons_self q rest) hq'.1 hq'.2]
      · simp [strategy3_step, hq]
    rw [hstep]
    exact ih (fun q2 hq2 => h q2 (List.mem_cons_of_mem q hq2))

/-- Inversion of `find_best_match`: any outcome with a matched POI came from
exactly one of the three return sites (strategy 1 with non-empty bucket,
strategy 2 scan, or strategy 3 proximity search under the record
truthiness guard). -/
theorem find_best_match_inversion (record : OurRecord) (amap_data : List Poi)
    (idx : List (List Char × List Poi)) (poi : Poi) (mt : Option MatchType)
    (dopt : Option ℝ)
    (h : find_best_match record amap_data idx = (some poi, mt, dopt)) :
    (∃ rest, index_get idx record.normalized = poi :: rest ∧
      mt = some MatchType.exact_name ∧
      dopt = if coordsOk record poi then some (hav record poi) else none) ∨
    (index_get idx record.normalized = [] ∧
      ∃ mt1, strategy2 record amap_data = some (poi, mt1, dopt) ∧
        mt = some mt1) ∨
    (index_get idx record.normalized = [] ∧
      strategy2 record amap_data = none ∧
      (truthy record.lng && truthy record.lat) = true ∧
      ∃ cd, strategy3 record amap_data = some (cd, poi) ∧
        mt = some MatchType.coord_proximity ∧ dopt = some cd) := by
  unfold find_best_match at h
  split at h
  · rename_i p0 rest0 hb
    obtain ⟨hp, hmt, hd⟩ : some p0 = some poi ∧
        some MatchType.exact_name = mt ∧
        (if coordsOk record p0 then some (hav record p0) else none) = dopt := by
      simpa [Prod.ext_iff] using h
    obtain rfl := Option.some.inj hp
    exact Or.inl ⟨rest0, hb, hmt.symm, hd.symm⟩
  · rename_i hb
    split at h
    · rename_i p1 mt1 d1 hs2
      obtain ⟨hp, hmt, hd⟩ : some p1 = some poi ∧ some mt1 = mt ∧ d1 = dopt := by
        simpa [Prod.ext_iff] using h
      obtain rfl := Option.some.inj hp
      subst hd
      exact Or.inr (Or.inl ⟨hb, mt1, hs2, hmt.symm⟩)
    · rename_i hs2
      split at h
      · rename_i htr
        split at h
        · rename_i cd p1 hs3
          obtain ⟨hp, hmt, hd⟩ : some p1 = some poi ∧
              some MatchType.coord_proximity = mt ∧ some cd = dopt := by
            simpa [Prod.ext_iff] using h
          obtain rfl := Option.some.inj hp
          exact Or.inr (Or.inr ⟨hb, hs2, htr, cd, hs3, hmt.symm, hd.symm⟩)
        · simp [Prod.ext_iff] at h
      · simp [Prod.ext_iff] at h

/-- C10: the 50 m radius of the coordinate-proximity strategy is strict:
whenever the matcher returns a tier `coord_proximity` outcome, its distance
is present and strictly below 50 m (so a candidate at exactly 50.0 m can
never be selected). -/
theorem c10_coord_proximity_strict (record : OurRecord) (amap_data : List Poi)
    (idx : List (List Char × List Poi)) (poi : Poi) (dopt : Option ℝ)
    (h : find_best_match record amap_data idx =
      (some poi, some MatchType.coord_proximity, dopt)) :
    ∃ d, dopt = some d ∧ d < 50 := by
  rcases find_best_match_inversion record amap_data idx poi _ dopt h with
    ⟨rest, hb, hmt, hd⟩ | ⟨hb, mt1, hs2, hmt⟩ | ⟨hb, hs2, htr, cd, hs3, hmt, hd⟩
  · exact absurd (Option.some.inj hmt) (by simp)
  · have hmt1 : mt1 = MatchType.coord_proximity := Option.some.inj hmt.symm
    subst hmt1
    rcases strategy2_some_cases record amap_data poi _ dopt hs2 with
      ⟨-, hc, -⟩ | ⟨-, hc, -⟩ <;> exact absurd hc (by simp)
  · obtain ⟨hprov, -, -⟩ :=
      strategy3_foldl_eq_some record amap_data none cd poi hs3
    rcases hprov with hprov | hprov
    · exact Option.noConfusion hprov
    · exact ⟨cd, hd, hprov.2.2.2.2⟩

/-- A primary record with truthy coordinates and normalized key `ab`. -/
def recC10 : OurRecord := ⟨['a', 'b'], [], [], [], some 109, some 34, ['a', 'b']⟩

/-- A POI sharing `recC10`'s exact position but with unrelated name `cd`. -/
def poiC10 : Poi := ⟨"PT", ['c', 'd'], [], [], some 109, some 34, ['c', 'd']⟩

/-- Witness for C10: a proximity match at distance zero is produced and its
distance is strictly below 50 m. -/
theorem c10_coord_proximity_strict_witness :
    find_best_match recC10 [poiC10] (amap_norm_index [poiC10]) =
      (some poiC10, some MatchType.coord_proximity,
        some (hav recC10 poiC10)) ∧
    ∃ d, (some (hav recC10 poiC10) : Option ℝ) = some d ∧ d < 50 := by
  have hzero : hav recC10 poiC10 = 0 := haversine_self _ _
  have h50 : hav recC10 poiC10 < 50 := by rw [hzero]; norm_num
  have hs3 : strategy3 recC10 [poiC10] =
      some (hav recC10 poiC10, poiC10) := by
    simp [strategy3, strategy3_step, h50]
    exact ⟨by decide, by decide⟩
  have hmain : find_best_match recC10 [poiC10] (amap_norm_index [poiC10]) =
      (some poiC10, some MatchType.coord_proximity,
        some (hav recC10 poiC10)) := by
    have hs2 : strategy2 recC10 [poiC10] = none := rfl
    simp [find_best_match, hs2, hs3]
    rfl
  exact ⟨hmain,
    c10_coord_proximity_strict recC10 [poiC10] (amap_norm_index [poiC10])
      poiC10 (some (hav recC10 poiC10)) hmain⟩

/-- A primary record carrying coordinates, with latitude exactly 0. -/
def recC2 : OurRecord := ⟨['a', 'b'], [], [], [], some 109, some 0, ['a', 'b']⟩

/-- A POI with the same normalized key as `recC2` and full coordinates. -/
def poiC2 : Poi := ⟨"P2", ['a', 'b'], [], [], some 109, some 34, ['a', 'b']⟩

/-- Counterexample to C2 as stated: both the primary record and the matched
reference record carry coordinates (all four optional values are present),
yet the matcher returns the match with an absent distance, because the
Python truthiness test treats the coordinate value 0.0 as missing. -/
theorem c2_distance_counterexample :
    recC2.lng.isSome = true ∧ recC2.lat.isSome = true ∧
    poiC2.lng.isSome = true ∧ poiC2.lat.isSome = true ∧
    find_best_match recC2 [poiC2] (amap_norm_index [poiC2]) =
      (some poiC2, some MatchType.exact_name, none) :=
  ⟨rfl, rfl, rfl, rfl, rfl⟩

/-- C2 (amended): in every outcome with a matched reference record, the
distance is present exactly when all four coordinate values are present
*and nonzero* (the code's truthiness guard), and when present it equals the
haversine distance between the record and the matched POI. -/
theorem c2_distance_presence_amended (record : OurRecord)
    (amap_data : List Poi) (idx : List (List Char × List Poi)) (poi : Poi)
    (mt : Option MatchType) (dopt : Option ℝ)
    (h : find_best_match record amap_data idx = (some poi, mt, dopt)) :
    (dopt.isSome = true ↔ coordsOk record poi = true) ∧
    ∀ x, dopt = some x → x = hav record poi := by
  rcases find_best_match_inversion record amap_data idx poi mt dopt h with
    ⟨rest, hb, hmt, hd⟩ | ⟨hb, mt1, hs2, hmt⟩ | ⟨hb, hs2, htr, cd, hs3, hmt, hd⟩
  · subst hd
    by_cases hc : coordsOk record poi = true
    · refine ⟨by simp [hc], ?_⟩
      intro x hx
      rw [if_pos hc] at hx
      exact (Option.some.inj hx).symm
    · refine ⟨by simp [hc], ?_⟩
      intro x hx
      rw [if_neg hc] at hx
      exact Option.noConfusion hx
  · rcases strategy2_some_cases record amap_data poi mt1 dopt hs2 with
      ⟨hcok, -, hd, -⟩ | ⟨hcok, -, hd⟩
    · subst hd
      refine ⟨by simp [hcok], ?_⟩
      intro x hx
      exact (Option.some.inj hx).symm
    · subst hd
      refine ⟨by simp [hcok], ?_⟩
      intro x hx
      exact Option.noConfusion hx
  · obtain ⟨hprov, -, -⟩ :=
      strategy3_foldl_eq_some record amap_data none cd poi hs3
    rcases hprov with hprov | hprov
    · exact Option.noConfusion hprov
    · obtain ⟨-, hp1, hp2, hcd, -⟩ := hprov
      subst hd
      have htr' : truthy record.lng = true ∧ truthy record.lat = true := by
        simpa [Bool.and_eq_true] using htr
      refine ⟨by simp [coordsOk, Bool.and_eq_true, htr'.1, htr'.2, hp1, hp2], ?_⟩
      intro x hx
      rw [← Option.some.inj hx]
      exact hcd

/-- A primary record with truthy coordinates and normalized key `ab`. -/
def recC2w : OurRecord := ⟨['a', 'b'], [], [], [], some 109, some 34, ['a', 'b']⟩

/-- A POI sharing `recC2w`'s normalized key and carrying truthy coordinates. -/
def poiC2w : Poi := ⟨"P2W", ['a', 'b'], [], [], some 110, some 35, ['a', 'b']⟩

/-- Witness for the amended C2: an exact-name match between two records
with truthy coordinates yields a present distance equal to the haversine
distance. -/
theorem c2_distance_presence_amended_witness :
    find_best_match recC2w [poiC2w] (amap_norm_index [poiC2w]) =
      (some poiC2w, some MatchType.exact_name, some (hav recC2w poiC2w)) ∧
    ((some (hav recC2w poiC2w) : Option ℝ).isSome = true ↔
      coordsOk recC2w poiC2w = true) ∧
    ∀ x, (some (hav recC2w poiC2w) : Option ℝ) = some x →
      x = hav recC2w poiC2w := by
  have hmain : find_best_match recC2w [poiC2w] (amap_norm_index [poiC2w]) =
      (some poiC2w, some MatchType.exact_name, some (hav recC2w poiC2w)) := rfl
  exact ⟨hmain,
    c2_distance_presence_amended recC2w [poiC2w] (amap_norm_index [poiC2w])
      poiC2w (some MatchType.exact_name) (some (hav recC2w poiC2w)) hmain⟩

/-- A primary record carrying coordinates whose latitude is exactly 0. -/
def recC6 : OurRecord := ⟨['a', 'b'], [], [], [], some 109, some 0, ['a', 'b']⟩

/-- A POI at the same position as `recC6` (distance zero), with an
unrelated name. -/
def poiC6 : Poi := ⟨"P6", ['c', 'd'], [], [], some 109, some 0, ['c', 'd']⟩

/-- Counterexample to C6 as stated: strategies 1 and 2 yield nothing, the
record carries coordinates, and a reference candidate carrying coordinates
lies within 50 m (distance zero); the claim predicts a proximity match, but
the matcher returns no match, because the truthiness guard treats the
latitude 0.0 as a missing coordinate. -/
theorem c6_coord_proximity_counterexample :
    index_get (amap_norm_index [poiC6]) recC6.normalized = [] ∧
    (¬ (recC6.normalized <:+: poiC6.normalized ∨
        poiC6.normalized <:+: recC6.normalized)) ∧
    recC6.lng.isSome = true ∧ recC6.lat.isSome = true ∧
    poiC6.lng.isSome = true ∧ poiC6.lat.isSome = true ∧
    hav recC6 poiC6 < 50 ∧
    find_best_match recC6 [poiC6] (amap_norm_index [poiC6]) =
      (none, none, none) := by
  refine ⟨rfl, by decide, rfl, rfl, rfl, rfl, ?_, rfl⟩
  have hzero : hav recC6 poiC6 = 0 := haversine_self _ _
  rw [hzero]
  norm_num

/-- C6 (amended): when strategies 1 and 2 yield no candidate, then: if the
record's coordinates are present and nonzero (truthy), the matcher returns,
among all reference candidates with truthy coordinates strictly within
50 m, one of minimum haversine distance with tier `coord_proximity`
(best-of, not first-match), and returns no match when no such candidate
exists; if the record's coordinates are not truthy the outcome is always
no match. -/
theorem c6_coord_proximity_best_amended (record : OurRecord)
    (amap_data : List Poi)
    (hidx : index_get (amap_norm_index amap_data) record.normalized = [])
    (h2 : ∀ q ∈ amap_data, ¬ sub_accept record q) :
    ((truthy record.lng = true ∧ truthy record.lat = true) →
      ((∀ q ∈ amap_data, truthy q.lng = true → truthy q.lat = true →
          ¬ hav record q < 50) →
        find_best_match record amap_data (amap_norm_index amap_data) =
          (none, none, none)) ∧
      (∀ q0 ∈ amap_data, truthy q0.lng = true → truthy q0.lat = true →
        hav record q0 < 50 →
        ∃ p cd, find_best_match record amap_data (amap_norm_index amap_data) =
          (some p, some MatchType.coord_proximity, some cd) ∧
          p ∈ amap_data ∧ truthy p.lng = true ∧ truthy p.lat = true ∧
          cd = hav record p ∧ cd < 50 ∧
          ∀ q ∈ amap_data, truthy q.lng = true → truthy q.lat = true →
            hav record q < 50 → cd ≤ hav record q)) ∧
    (¬ (truthy record.lng = true ∧ truthy record.lat = true) →
      find_best_match record amap_data (amap_norm_index amap_data) =
        (none, none, none)) := by
  have hs2 : strategy2 record amap_data = none :=
    strategy2_eq_none record amap_data h2
  constructor
  · intro htr
    have htrb : (truthy record.lng && truthy record.lat) = true := by
      simp [Bool.and_eq_true, htr.1, htr.2]
    constructor
    · intro hnone
      have hs3 : strategy3 record amap_data = none :=
        strategy3_eq_none_of record amap_data hnone
      simp [find_best_match, hidx, hs2, htrb, hs3]
    · intro q0 hq0 hlng hlat hdist
      rcases hs3 : strategy3 record amap_data with _ | ⟨cd, p⟩
      · obtain ⟨-, hall⟩ :=
          strategy3_foldl_eq_none record amap_data none hs3
        exact absurd hdist (hall q0 hq0 hlng hlat)
      · obtain ⟨hprov, -, hmin⟩ :=
          strategy3_foldl_eq_some record amap_data none cd p hs3
        rcases hprov with hprov | hprov
        · exact Option.noConfusion hprov
        · refine ⟨p, cd, ?_, hprov.1, hprov.2.1, hprov.2.2.1,
            hprov.2.2.2.1, hprov.2.2.2.2, hmin⟩
          simp [find_best_match, hidx, hs2, htrb, hs3]
  · intro htr
    have htrb : (truthy record.lng && truthy record.lat) = false := by
      by_cases h1 : truthy record.lng = true
      · by_cases hl : truthy record.lat = true
        · exact absurd ⟨h1, hl⟩ htr
        · simp [Bool.not_eq_true] at hl
          simp [hl]
      · simp [Bool.not_eq_true] at h1
        simp [h1]
    simp [find_best_match, hidx, hs2, htrb]

/-- A primary record with truthy coordinates and normalized key `ab`. -/
def recC6w : OurRecord := ⟨['a', 'b'], [], [], [], some 109, some 34, ['a', 'b']⟩

/-- A POI at the same position as `recC6w`, with unrelated name `cd`. -/
def poiC6w : Poi := ⟨"P6W", ['c', 'd'], [], [], some 109, some 34, ['c', 'd']⟩

/-- Witness for the amended C6: with a truthy-coordinate record, no name
overlap and a candidate at distance zero, the matcher returns that
candidate through the proximity tier with the minimal distance. -/
theorem c6_coord_proximity_best_amended_witness :
    index_get (amap_norm_index [poiC6w]) recC6w.normalized = [] ∧
    (∃ p cd, find_best_match recC6w [poiC6w] (amap_norm_index [poiC6w]) =
      (some p, some MatchType.coord_proximity, some cd) ∧
      p ∈ [poiC6w] ∧ truthy p.lng = true ∧ truthy p.lat = true ∧
      cd = hav recC6w p ∧ cd < 50 ∧
      ∀ q ∈ [poiC6w], truthy q.lng = true → truthy q.lat = true →
        hav recC6w q < 50 → cd ≤ hav recC6w q) := by
  have h2 : ∀ q ∈ [poiC6w], ¬ sub_accept recC6w q := by
    intro q hq
    have hq' : q = poiC6w := by simpa using hq
    subst hq'
    exact fun hs => absurd hs.2.1 (by decide)
  have hzero : hav recC6w poiC6w = 0 := haversine_self _ _
  have h50 : hav recC6w poiC6w < 50 := by rw [hzero]; norm_num
  refine ⟨rfl, ?_⟩
  exact (c6_coord_proximity_best_amended recC6w [poiC6w] rfl h2).1
    ⟨by decide, by decide⟩ |>.2 poiC6w (by simp) (by decide) (by decide) h50

/-- Membership in the accumulated matched-id set: an id is present exactly
when it was in the initial set or is the id of the matched POI of some
outcome in the list. -/
theorem matched_amap_ids_foldl_spec
    (outcomes : List (Option Poi × Option MatchType × Option ℝ)) :
    ∀ (init : Finset String) (i : String),
      (i ∈ outcomes.foldl
        (fun s o => match o.1 with
          | some poi => insert poi.poi_id s
          | none => s) init) ↔
      i ∈ init ∨ ∃ o ∈ outcomes, ∃ q : Poi, o.1 = some q ∧ q.poi_id = i := by
  induction outcomes with
  | nil => simp
  | cons o rest ih =>
    intro init i
    simp only [List.foldl_cons]
    rcases ho : o.1 with _ | q
    · rw [ih]
      simp [ho]
    · rw [ih]
      simp only [Finset.mem_insert, List.mem_cons]
      constructor
      · rintro ((hi | hi) | ⟨o2, ho2, q2, hq2, hi⟩)
        · exact Or.inr ⟨o, Or.inl rfl, q, ho, hi.symm⟩
        · exact Or.inl hi
        · exact Or.inr ⟨o2, Or.inr ho2, q2, hq2, hi⟩
      · rintro (hi | ⟨o2, ho2 | ho2, q2, hq2, hi⟩)
        · exact Or.inl (Or.inr hi)
        · subst ho2
          rw [ho] at hq2
          obtain rfl := Option.some.inj hq2
          exact Or.inl (Or.inl hi.symm)
        · exact Or.inr ⟨o2, ho2, q2, hq2, hi⟩

/-- An id is in `matched_amap_ids` exactly when some outcome matched a POI
with that id. -/
theorem mem_matched_amap_ids
    (outcomes : List (Option Poi × Option MatchType × Option ℝ))
    (i : String) :
    i ∈ matched_amap_ids outcomes ↔
      ∃ o ∈ outcomes, ∃ q : Poi, o.1 = some q ∧ q.poi_id = i := by
  rw [matched_amap_ids, matched_amap_ids_foldl_spec]
  simp

/-- C5: after the whole matching pass, `cat4_only_amap` holds exactly the
reference records whose identifier was never the matched target of any
outcome; a matched reference record is excluded (its multiplicity in the
output is zero), and an unmatched one keeps exactly its multiplicity in the
reference collection, so nothing is double-counted even when one reference
record is matched by several primary records. -/
theorem c5_only_reference (our_data : List OurRecord) (amap_data : List Poi)
    (idx : List (List Char × List Poi)) (poi : Poi) :
    (poi ∈ cat4_only_amap amap_data
        (matched_amap_ids (process_records our_data amap_data idx)) ↔
      poi ∈ amap_data ∧
        ∀ rec ∈ our_data, ∀ q : Poi,
          (find_best_match rec amap_data idx).1 = some q →
          q.poi_id ≠ poi.poi_id) ∧
    List.count poi (cat4_only_amap amap_data
        (matched_amap_ids (process_records our_data amap_data idx))) =
      if poi.poi_id ∈ matched_amap_ids (process_records our_data amap_data idx)
        then 0 else List.count poi amap_data := by
  constructor
  · rw [cat4_only_amap, List.mem_filter]
    simp only [decide_eq_true_eq, mem_matched_amap_ids, process_records,
      List.mem_map]
    constructor
    · rintro ⟨hmem, hno⟩
      refine ⟨hmem, fun rec hrec q hq hpid => hno ?_⟩
      exact ⟨find_best_match rec amap_data idx, ⟨rec, hrec, rfl⟩, q, hq, hpid⟩
    · rintro ⟨hmem, hall⟩
      refine ⟨hmem, ?_⟩
      rintro ⟨o, ⟨rec, hrec, rfl⟩, q, hq, hpid⟩
      exact hall rec hrec q hq hpid
  · by_cases hm : poi.poi_id ∈
        matched_amap_ids (process_records our_data amap_data idx)
    · rw [if_pos hm]
      rw [List.count_eq_zero]
      intro hmem
      have hdec := (List.mem_filter.mp hmem).2
      simp only [decide_eq_true_eq] at hdec
      exact hdec hm
    · rw [if_neg hm]
      exact List.count_filter (by simp [hm])

/-- A primary record with normalized key `ab` and no coordinates. -/
def recC5 : OurRecord := ⟨['a', 'b'], [], [], [], none, none, ['a', 'b']⟩

/-- A POI with id `R1` matched by `recC5` through its normalized key. -/
def poiC5a : Poi := ⟨"R1", ['a', 'b'], [], [], none, none, ['a', 'b']⟩

/-- A POI with id `R3` matched by nothing. -/
def poiC5b : Poi := ⟨"R3", ['z', 'z'], [], [], none, none, ['z', 'z']⟩

/-- Witness for C5: with two primary records both matching the POI `R1`,
the POI `R3` is the only member of `cat4_only_amap` and `R1` is excluded
(once, not twice). -/
theorem c5_only_reference_witness :
    poiC5b ∈ cat4_only_amap [poiC5a, poiC5b]
      (matched_amap_ids (process_records [recC5, recC5] [poiC5a, poiC5b]
        (amap_norm_index [poiC5a, poiC5b]))) ∧
    poiC5a ∉ cat4_only_amap [poiC5a, poiC5b]
      (matched_amap_ids (process_records [recC5, recC5] [poiC5a, poiC5b]
        (amap_norm_index [poiC5a, poiC5b]))) := by
  have hfind : find_best_match recC5 [poiC5a, poiC5b]
      (amap_norm_index [poiC5a, poiC5b]) =
      (some poiC5a, some MatchType.exact_name, none) := rfl
  constructor
  · refine (c5_only_reference [recC5, recC5] [poiC5a, poiC5b] _ poiC5b).1.mpr
      ⟨by simp, ?_⟩
    intro rec hrec q hq
    have hr : rec = recC5 := by
      rcases List.mem_cons.mp hrec with h | h
      · exact h
      · simpa using h
    subst hr
    rw [hfind] at hq
    obtain rfl := Option.some.inj hq
    decide
  · intro hmem
    have h := (c5_only_reference [recC5, recC5] [poiC5a, poiC5b] _ poiC5a).1.mp
      hmem
    refine absurd rfl (h.2 recC5 (by simp) poiC5a ?_)
    rw [hfind]

/-- Lower-casing a non-uppercase character leaves it unchanged. -/
theorem toLower_of_not_upper (c : Char) (h : ¬ (c.toNat ≥ 65 ∧ c.toNat ≤ 90)) :
    Char.toLower c = c := by
  unfold Char.toLower
  rw [if_neg h]

/-- Lower-casing an uppercase ASCII letter adds 32 to its code point. -/
theorem toNat_toLower_of_upper (c : Char) (h : c.toNat ≥ 65 ∧ c.toNat ≤ 90) :
    (Char.toLower c).toNat = c.toNat + 32 := by
  unfold Char.toLower
  rw [if_pos h]
  generalize c.toNat = n at h ⊢
  have hv : (n + 32).isValidChar := Or.inl (by omega)
  simp [Char.ofNat, hv, Char.ofNatAux, Char.toNat, UInt32.toNat,
    BitVec.toNat_ofNatLt]

/-- Lower-casing twice equals lower-casing once. -/
theorem toLower_toLower (c : Char) :
    Char.toLower (Char.toLower c) = Char.toLower c := by
  by_cases h : c.toNat ≥ 65 ∧ c.toNat ≤ 90
  · apply toLower_of_not_upper
    rw [toNat_toLower_of_upper c h]
    omega
  · rw [toLower_of_not_upper c h]
    exact toLower_of_not_upper c h

/-- A character whose code point lies in the lowercase ASCII range is
neither in the punctuation class nor whitespace. -/
theorem punct_space_false_of_lower_range (d : Char) (h1 : 97 ≤ d.toNat)
    (h2 : d.toNat ≤ 122) : (isPunct d || isPySpace d) = false := by
  rw [Bool.or_eq_false_iff]
  constructor
  · have hnm : d.toNat ∉ punctCodes := by
      intro hm
      simp only [punctCodes, List.mem_cons, List.not_mem_nil, or_false] at hm
      omega
    simpa [isPunct] using hnm
  · simp only [isPySpace]
    simp only [Bool.or_eq_false_iff, Bool.and_eq_false_iff,
      decide_eq_false_iff_not, not_le, beq_eq_false_iff_ne, ne_eq]
    omega

/-- Lower-casing never maps a clean character into the punctuation or
whitespace classes. -/
theorem toLower_clean (c : Char) (h : (isPunct c || isPySpace c) = false) :
    (isPunct (Char.toLower c) || isPySpace (Char.toLower c)) = false := by
  by_cases hc : c.toNat ≥ 65 ∧ c.toNat ≤ 90
  · have := toNat_toLower_of_upper c hc
    exact punct_space_false_of_lower_range _ (by omega) (by omega)
  · rw [toLower_of_not_upper c hc]
    exact h

/-- Suffix stripping only ever removes characters. -/
theorem strip_suffix_subset (l : List Char) (c : Char)
    (h : c ∈ strip_suffix l) : c ∈ l := by
  unfold strip_suffix at h
  split at h
  · exact List.mem_of_mem_take h
  · split at h
    · exact List.mem_of_mem_take h
    · exact h

/-- Every character of a normalized name is clean: not punctuation, not
whitespace. -/
theorem normalize_name_chars_clean (x : List Char) :
    ∀ c ∈ normalize_name x, (isPunct c || isPySpace c) = false := by
  intro c hc
  unfold normalize_name at hc
  rw [List.mem_map] at hc
  obtain ⟨c0, hc0, rfl⟩ := hc
  have hc1 : c0 ∈ x.filter (fun c => !(isPunct c || isPySpace c)) :=
    strip_suffix_subset _ c0 hc0
  have hclean := (List.mem_filter.mp hc1).2
  apply toLower_clean
  simpa using hclean

/-- Removing punctuation and whitespace from an already-normalized name
changes nothing. -/
theorem normalize_name_filter_fix (x : List Char) :
    (normalize_name x).filter (fun c => !(isPunct c || isPySpace c)) =
      normalize_name x := by
  apply List.filter_eq_self.mpr
  intro c hc
  rw [normalize_name_chars_clean x c hc]
  rfl

/-- Lower-casing an already-normalized name changes nothing. -/
theorem normalize_name_lower_fix (x : List Char) :
    (normalize_name x).map Char.toLower = normalize_name x := by
  show ((strip_suffix (x.filter (fun c => !(isPunct c || isPySpace c)))).map
    Char.toLower).map Char.toLower = _
  rw [List.map_map]
  have : ∀ l : List Char,
      l.map (Char.toLower ∘ Char.toLower) = l.map Char.toLower := by
    intro l
    induction l with
    | nil => rfl
    | cons a l2 ih => simp [ih, Function.comp, toLower_toLower]
  exact this _

/-- C8: `normalize_name` is a total function of the input name, the empty
string yields the empty key, and it is idempotent on every input whose
normalized form does not itself end in a strippable suffix word (suffix
stripping is applied once, not recursively). -/
theorem c8_normalize_total_idempotent :
    normalize_name [] = [] ∧
    ∀ x : List Char, endsInSuffixWord (normalize_name x) = false →
      normalize_name (normalize_name x) = normalize_name x := by
  refine ⟨rfl, ?_⟩
  intro x h
  have h2 : strip_suffix (normalize_name x) = normalize_name x := by
    unfold endsInSuffixWord at h
    rw [Bool.or_eq_false_iff] at h
    unfold strip_suffix
    rw [if_neg (by simp [h.1]), if_neg (by simp [h.2])]
  show (strip_suffix ((normalize_name x).filter
    (fun c => !(isPunct c || isPySpace c)))).map Char.toLower = _
  rw [normalize_name_filter_fix, h2, normalize_name_lower_fix]

/-- Sample name: an uppercase letter, a space, a hyphen, a CJK character
and a digit. -/
def xC8 : List Char := ['A', ' ', 'b', '-', '高', '1']

/-- Witness for C8: the sample name normalizes to a form that ends in no
suffix word, and normalizing again changes nothing. -/
theorem c8_normalize_total_idempotent_witness :
    endsInSuffixWord (normalize_name xC8) = false ∧
    normalize_name (normalize_name xC8) = normalize_name xC8 :=
  ⟨by decide, c8_normalize_total_idempotent.2 xC8 (by decide)⟩
